import Mathlib

/-!
Shallow embedding of the incremental terminal display engine of `myg`
(`MqttDisplay` in the Zig source file): the entry table mapping topic keys
to display positions, the `updateTopic` operation with its new-key and
existing-key paths, the draw routines, and the `topicCount` query.

Modelling conventions:
* The `std.StringHashMap(TopicInfo)` is embedded as an association list in
  insertion order; `getPtr` is first-match lookup, `put` (only ever called
  for an absent key) is appending.
* Heap-owned strings are tracked by `allocCount`, the number of currently
  live engine-owned heap blocks: each successful `allocator.dupe` adds one,
  each `allocator.free` removes one.  A stored value that has been freed is
  modelled as `ValueState.freed` (a dangling reference in the real code).
* Fallible steps (`dupe` allocations, hash-map `put`, terminal writes) are
  driven by a `FailProfile` saying which step, if any, fails during one
  `updateTopic` call; `errdefer` cleanup is unfolded explicitly on each
  error path, exactly as the Zig semantics runs it.
* Terminal output is the string of bytes written to the writer; escape
  sequences are built exactly as the `print` format strings build them.
  Output produced before an I/O failure is not modelled (failing writes
  contribute no bytes); no claim depends on partially written output.
* Zig slice length `topic.len` is the byte length of the key, embedded as
  `String.utf8ByteSize`.
-/

/-- State of one engine-owned value string: still allocated, or freed
(a dangling slice in the real program). -/
inductive ValueState where
  | live (v : String) : ValueState
  | freed : ValueState
  deriving DecidableEq, Repr

/-- `TopicInfo`: display position and current value of one topic. -/
structure TopicInfo where
  row : Nat
  value_column : Nat
  value : ValueState
  deriving DecidableEq, Repr

/-- `MqttDisplay`: the entry table (insertion-ordered association list
standing for the `StringHashMap`), the next free row, and the count of live
engine-owned heap blocks. -/
structure MqttDisplay where
  topics : List (String × TopicInfo)
  next_row : Nat
  allocCount : Nat
  deriving DecidableEq, Repr

/-- `MqttDisplay.init`: empty table, `next_row = 1`, nothing allocated. -/
def MqttDisplay.init : MqttDisplay :=
  { topics := [], next_row := 1, allocCount := 0 }

/-- First-match lookup in the entry table (`topics.getPtr(topic)`). -/
def lookupT (k : String) : List (String × TopicInfo) → Option TopicInfo
  | [] => none
  | (k', i) :: rest => if k' = k then some i else lookupT k rest

/-- In-place mutation of the `value` field of the entry found by `getPtr`
(`info.value = ...`): replaces the value of the first entry whose key
matches, leaves everything else untouched. -/
def setVal (k : String) (nv : ValueState) :
    List (String × TopicInfo) → List (String × TopicInfo)
  | [] => []
  | (k', i) :: rest =>
    if k' = k then (k', { i with value := nv }) :: rest
    else (k', i) :: setVal k nv rest

/-- Bytes of `print("\x1B[{d};{d}H", .{row, col})`: position the cursor. -/
def cursorTo (row col : Nat) : String :=
  "\x1B[" ++ toString row ++ ";" ++ toString col ++ "H"

/-- Bytes of `writeAll("\x1B[K")`: clear from cursor to end of line. -/
def escClearLine : String := "\x1B[K"

/-- Text a draw routine writes for a stored value (a freed value is a
dangling slice; it is never drawn on a reachable path). -/
def valueText : ValueState → String
  | ValueState.live v => v
  | ValueState.freed => ""

/-- `drawFullTopic`: bytes written when drawing a full topic line — cursor
to `(row, 1)`, then `"<topic>: "`, then the value.  `none` when the topic
is absent (the `.?` assertion of the source would crash there). -/
def drawFullTopic (s : MqttDisplay) (topic : String) : Option String :=
  (lookupT topic s.topics).map fun info =>
    cursorTo info.row 1 ++ topic ++ ": " ++ valueText info.value

/-- `redrawTopicValue`: bytes written when redrawing only the value part —
cursor to `(row, value_column)`, clear to end of line, then the value. -/
def redrawTopicValue (s : MqttDisplay) (topic : String) : Option String :=
  (lookupT topic s.topics).map fun info =>
    cursorTo info.row info.value_column ++ escClearLine ++ valueText info.value

/-- Which fallible step of one `updateTopic` call fails: the key dupe, the
value dupe, the hash-map `put`, or the terminal writes of the draw call. -/
structure FailProfile where
  dupeTopic : Bool
  dupeValue : Bool
  putFails : Bool
  drawFails : Bool
  deriving DecidableEq, Repr

/-- The profile of a call on which every step succeeds. -/
def noFail : FailProfile :=
  { dupeTopic := false, dupeValue := false, putFails := false, drawFails := false }

/-- Result of one `updateTopic` call: the state afterwards, whether the call
returned without error, and the bytes written to the terminal. -/
structure UpdResult where
  state : MqttDisplay
  ok : Bool
  out : String
  deriving DecidableEq, Repr

/-- `MqttDisplay.updateTopic`, embedded path by path from the source.

Existing key: free the old value, dupe the new one (on failure the entry is
left holding the freed slice and the error propagates), then redraw just the
value part.

New key: dupe the key, dupe the value (`errdefer` frees the key dupe on any
later error), `put` the entry with `row = next_row` and
`value_column = topic.len + 3`, draw the full line, and only then increment
`next_row`.  On a `put` failure both dupes are freed by the `errdefer`s and
nothing is inserted; on a draw failure the `errdefer`s free both dupes even
though the entry was already inserted, and `next_row` is not incremented. -/
def MqttDisplay.updateTopic (s : MqttDisplay) (topic value : String)
    (f : FailProfile) : UpdResult :=
  match lookupT topic s.topics with
  | some _ =>
    -- Existing topic: free old value, dupe new one, redraw the value part.
    let s1 : MqttDisplay :=
      { s with topics := setVal topic ValueState.freed s.topics,
               allocCount := s.allocCount - 1 }
    if f.dupeValue then
      { state := s1, ok := false, out := "" }
    else
      let s2 : MqttDisplay :=
        { s1 with topics := setVal topic (ValueState.live value) s1.topics,
                  allocCount := s1.allocCount + 1 }
      if f.drawFails then
        { state := s2, ok := false, out := "" }
      else
        { state := s2, ok := true, out := (redrawTopicValue s2 topic).getD "" }
  | none =>
    -- New topic.
    if f.dupeTopic then
      { state := s, ok := false, out := "" }
    else if f.dupeValue then
      -- errdefer frees the key dupe: allocation count is restored.
      { state := { s with allocCount := s.allocCount + 1 - 1 }, ok := false, out := "" }
    else if f.putFails then
      -- errdefers free both dupes; nothing was inserted.
      { state := { s with allocCount := s.allocCount + 2 - 2 }, ok := false, out := "" }
    else
      let info : TopicInfo :=
        { row := s.next_row,
          value_column := topic.utf8ByteSize + 3,
          value := ValueState.live value }
      let s3 : MqttDisplay :=
        { s with topics := s.topics ++ [(topic, info)],
                 allocCount := s.allocCount + 2 }
      if f.drawFails then
        -- errdefers free both dupes although the entry is in the table:
        -- the entry remains, dangling, and next_row is not incremented.
        { state := { s3 with topics := setVal topic ValueState.freed s3.topics,
                             allocCount := s3.allocCount - 2 },
          ok := false, out := "" }
      else
        { state := { s3 with next_row := s3.next_row + 1 }, ok := true,
          out := (drawFullTopic s3 topic).getD "" }

/-- `redrawAll`: clear the screen and draw every entry; reads the state and
writes bytes but never mutates the table. -/
def MqttDisplay.redrawAll (s : MqttDisplay) : MqttDisplay × String :=
  (s, "\x1B[2J" ++ String.join (s.topics.map fun p => (drawFullTopic s p.1).getD ""))

/-- `topicCount`: number of entries in the table. -/
def MqttDisplay.topicCount (s : MqttDisplay) : Nat :=
  s.topics.length

/-- States reachable from a fresh engine by arbitrary `updateTopic` calls,
failed ones included. -/
inductive Reachable : MqttDisplay → Prop where
  | init : Reachable MqttDisplay.init
  | step (s : MqttDisplay) (t v : String) (f : FailProfile) :
      Reachable s → Reachable (s.updateTopic t v f).state

/-- States reachable from a fresh engine by `updateTopic` calls that all
returned successfully. -/
inductive ReachableOk : MqttDisplay → Prop where
  | init : ReachableOk MqttDisplay.init
  | step (s : MqttDisplay) (t v : String) (f : FailProfile) :
      ReachableOk s → (s.updateTopic t v f).ok = true →
      ReachableOk (s.updateTopic t v f).state

/-- Run a sequence of (all-steps-succeed) update calls from a fresh engine. -/
def run (l : List (String × String)) : MqttDisplay :=
  l.foldl (fun s p => (s.updateTopic p.1 p.2 noFail).state) MqttDisplay.init

/-- The distinct keys of a call sequence, in first-seen order. -/
def distinctKeys (l : List (String × String)) : List String :=
  l.foldl (fun acc p => if p.1 ∈ acc then acc else acc ++ [p.1]) []

/-- The keys of the entry table, in insertion order. -/
def keysOf (s : MqttDisplay) : List String :=
  s.topics.map Prod.fst

/-- Largest assigned row of the table, `0` for an empty table. -/
def maxRow (s : MqttDisplay) : Nat :=
  (s.topics.map fun p => p.2.row).foldr max 0

/-- The `next_row` invariant exactly as spec invariant I2 words it:
`next_row` equals the largest assigned row plus one, or `1` when the table
is empty. -/
def nextRowInv (s : MqttDisplay) : Prop :=
  s.next_row = if s.topics.isEmpty then 1 else maxRow s + 1


/-- Structural invariant of the table under successful operation: the entry
at position `n` (insertion order) holds row `n + 1`, and `next_row` is one
past the number of entries. -/
def Shape (s : MqttDisplay) : Prop :=
  (∀ n, ∀ hn : n < s.topics.length, (s.topics.get ⟨n, hn⟩).2.row = n + 1) ∧
  s.next_row = s.topics.length + 1

/-- A failure profile on which only the terminal writes of the draw call
fail (an I/O error on the output sink). -/
def drawFailOnly : FailProfile :=
  { dupeTopic := false, dupeValue := false, putFails := false, drawFails := true }

/-- The state after one new-key update on a fresh engine whose full-line
draw failed: the entry was inserted at row 1, but `next_row` was never
incremented. -/
def drawFailState : MqttDisplay :=
  (MqttDisplay.init.updateTopic "a" "x" drawFailOnly).state

/-! ### Basic lemmas about table lookup and in-place value mutation -/

@[simp]
theorem lookupT_nil (k : String) : lookupT k [] = none := rfl

@[simp]
theorem lookupT_cons (k k' : String) (i : TopicInfo) (rest : List (String × TopicInfo)) :
    lookupT k ((k', i) :: rest) = if k' = k then some i else lookupT k rest := rfl

@[simp]
theorem setVal_nil (k : String) (nv : ValueState) : setVal k nv [] = [] := rfl

@[simp]
theorem setVal_cons (k k' : String) (nv : ValueState) (i : TopicInfo)
    (rest : List (String × TopicInfo)) :
    setVal k nv ((k', i) :: rest) =
      if k' = k then (k', { i with value := nv }) :: rest
      else (k', i) :: setVal k nv rest := rfl

theorem lookupT_eq_none_iff (k : String) (l : List (String × TopicInfo)) :
    lookupT k l = none ↔ k ∉ l.map Prod.fst := by
  induction l with
  | nil => simp
  | cons p rest ih =>
    obtain ⟨k', i⟩ := p
    by_cases h : k' = k
    · subst h
      simp
    · simp only [List.map_cons, List.mem_cons, lookupT_cons, if_neg h, ih]
      constructor
      · intro hnone hmem
        rcases hmem with hmem | hmem
        · exact h hmem.symm
        · exact hnone hmem
      · intro hnot
        exact fun hmem => hnot (Or.inr hmem)

theorem setVal_map_fst (k : String) (nv : ValueState) (l : List (String × TopicInfo)) :
    (setVal k nv l).map Prod.fst = l.map Prod.fst := by
  induction l with
  | nil => rfl
  | cons p rest ih =>
    obtain ⟨k', i⟩ := p
    by_cases h : k' = k <;> simp [h, ih]

theorem setVal_length (k : String) (nv : ValueState) (l : List (String × TopicInfo)) :
    (setVal k nv l).length = l.length := by
  induction l with
  | nil => rfl
  | cons p rest ih =>
    obtain ⟨k', i⟩ := p
    by_cases h : k' = k <;> simp [h, ih]

theorem setVal_get (k : String) (nv : ValueState) (l : List (String × TopicInfo))
    (n : Nat) (hn : n < l.length) (hn' : n < (setVal k nv l).length) :
    ((setVal k nv l).get ⟨n, hn'⟩).1 = (l.get ⟨n, hn⟩).1 ∧
    ((setVal k nv l).get ⟨n, hn'⟩).2.row = (l.get ⟨n, hn⟩).2.row ∧
    ((setVal k nv l).get ⟨n, hn'⟩).2.value_column = (l.get ⟨n, hn⟩).2.value_column := by
  induction l generalizing n with
  | nil => simp at hn
  | cons p rest ih =>
    obtain ⟨k', i⟩ := p
    by_cases h : k' = k
    · revert hn'
      rw [setVal_cons, if_pos h]
      intro hn'
      cases n with
      | zero => exact ⟨rfl, rfl, rfl⟩
      | succ m => exact ⟨rfl, rfl, rfl⟩
    · revert hn'
      rw [setVal_cons, if_neg h]
      intro hn'
      cases n with
      | zero => exact ⟨rfl, rfl, rfl⟩
      | succ m =>
        have hm : m < rest.length := Nat.lt_of_succ_lt_succ hn
        have hm' : m < (setVal k nv rest).length := by
          rw [setVal_length]; exact hm
        exact ih m hm hm'

theorem lookupT_setVal_self (k : String) (nv : ValueState)
    (l : List (String × TopicInfo)) (i : TopicInfo) (h : lookupT k l = some i) :
    lookupT k (setVal k nv l) = some { i with value := nv } := by
  induction l with
  | nil => simp at h
  | cons p rest ih =>
    obtain ⟨k', j⟩ := p
    by_cases hk : k' = k
    · rw [lookupT_cons, if_pos hk, Option.some.injEq] at h
      subst h
      rw [setVal_cons, if_pos hk, lookupT_cons, if_pos hk]
    · rw [lookupT_cons, if_neg hk] at h
      rw [setVal_cons, if_neg hk, lookupT_cons, if_neg hk]
      exact ih h

theorem lookupT_setVal_ne (k k' : String) (nv : ValueState)
    (l : List (String × TopicInfo)) (h : k' ≠ k) :
    lookupT k' (setVal k nv l) = lookupT k' l := by
  induction l with
  | nil => rfl
  | cons p rest ih =>
    obtain ⟨k'', j⟩ := p
    by_cases hk : k'' = k
    · have hne : ¬ k'' = k' := by
        rw [hk]
        exact fun hh => h hh.symm
      rw [setVal_cons, if_pos hk, lookupT_cons, lookupT_cons, if_neg hne, if_neg hne]
    · rw [setVal_cons, if_neg hk, lookupT_cons, lookupT_cons]
      by_cases hk' : k'' = k'
      · rw [if_pos hk', if_pos hk']
      · rw [if_neg hk', if_neg hk']
        exact ih

theorem lookupT_append_left (k : String) (l m : List (String × TopicInfo))
    (i : TopicInfo) (h : lookupT k l = some i) :
    lookupT k (l ++ m) = some i := by
  induction l with
  | nil => simp at h
  | cons p rest ih =>
    obtain ⟨k', j⟩ := p
    rw [List.cons_append, lookupT_cons]
    rw [lookupT_cons] at h
    by_cases hk : k' = k
    · rwa [if_pos hk] at h ⊢
    · rw [if_neg hk] at h ⊢
      exact ih h

theorem lookupT_append_new (k : String) (l : List (String × TopicInfo))
    (i : TopicInfo) (h : lookupT k l = none) :
    lookupT k (l ++ [(k, i)]) = some i := by
  induction l with
  | nil => simp
  | cons p rest ih =>
    obtain ⟨k', j⟩ := p
    rw [lookupT_cons] at h
    rw [List.cons_append, lookupT_cons]
    by_cases hk : k' = k
    · rw [if_pos hk] at h
      exact absurd h (by simp)
    · rw [if_neg hk] at h ⊢
      exact ih h

theorem lookupT_append_ne (k t : String) (l : List (String × TopicInfo))
    (i : TopicInfo) (h : k ≠ t) :
    lookupT k (l ++ [(t, i)]) = lookupT k l := by
  induction l with
  | nil =>
    have : ¬ t = k := fun hh => h hh.symm
    simp [this]
  | cons p rest ih =>
    obtain ⟨k', j⟩ := p
    rw [List.cons_append, lookupT_cons, lookupT_cons]
    by_cases hk : k' = k
    · rw [if_pos hk, if_pos hk]
    · rw [if_neg hk, if_neg hk]
      exact ih

theorem lookupT_get (k : String) (l : List (String × TopicInfo)) (i : TopicInfo)
    (h : lookupT k l = some i) :
    ∃ n, ∃ hn : n < l.length, l.get ⟨n, hn⟩ = (k, i) := by
  induction l with
  | nil => simp at h
  | cons p rest ih =>
    obtain ⟨k', j⟩ := p
    rw [lookupT_cons] at h
    by_cases hk : k' = k
    · rw [if_pos hk, Option.some.injEq] at h
      exact ⟨0, by simp, by simp [hk, h]⟩
    · rw [if_neg hk] at h
      obtain ⟨n, hn, hget⟩ := ih h
      exact ⟨n + 1, by simpa using Nat.succ_lt_succ hn, hget⟩

theorem get_append_sing (l : List (String × TopicInfo)) (x : String × TopicInfo)
    (n : Nat) (hn : n < l.length) (hn' : n < (l ++ [x]).length) :
    (l ++ [x]).get ⟨n, hn'⟩ = l.get ⟨n, hn⟩ :=
  List.get_append n hn

theorem get_append_last (l : List (String × TopicInfo)) (x : String × TopicInfo)
    (h : l.length < (l ++ [x]).length) :
    (l ++ [x]).get ⟨l.length, h⟩ = x := by
  simp

/-! ### Step lemmas about `updateTopic` -/

/-- A call that returns successfully behaves exactly like a call on which
every step succeeds: the only profiles compatible with `ok = true` are the
ones whose flags are never consulted. -/
theorem updateTopic_ok_eq_noFail (s : MqttDisplay) (t v : String) (f : FailProfile)
    (h : (s.updateTopic t v f).ok = true) :
    s.updateTopic t v f = s.updateTopic t v noFail := by
  cases hl : lookupT t s.topics with
  | some j =>
    cases hdv : f.dupeValue with
    | true => simp [MqttDisplay.updateTopic, hl, hdv] at h
    | false =>
      cases hdr : f.drawFails with
      | true => simp [MqttDisplay.updateTopic, hl, hdv, hdr] at h
      | false => simp [MqttDisplay.updateTopic, hl, hdv, hdr, noFail]
  | none =>
    cases hdt : f.dupeTopic with
    | true => simp [MqttDisplay.updateTopic, hl, hdt] at h
    | false =>
      cases hdv : f.dupeValue with
      | true => simp [MqttDisplay.updateTopic, hl, hdt, hdv] at h
      | false =>
        cases hpf : f.putFails with
        | true => simp [MqttDisplay.updateTopic, hl, hdt, hdv, hpf] at h
        | false =>
          cases hdr : f.drawFails with
          | true => simp [MqttDisplay.updateTopic, hl, hdt, hdv, hpf, hdr] at h
          | false => simp [MqttDisplay.updateTopic, hl, hdt, hdv, hpf, hdr, noFail]

/-- An all-steps-succeed call indeed returns successfully. -/
theorem updateTopic_noFail_ok (s : MqttDisplay) (t v : String) :
    (s.updateTopic t v noFail).ok = true := by
  cases hl : lookupT t s.topics with
  | some j => simp [MqttDisplay.updateTopic, hl, noFail]
  | none => simp [MqttDisplay.updateTopic, hl, noFail]

/-- Whatever one `updateTopic` call does — any key, any failure profile — an
entry already in the table keeps its key, its row and its value column. -/
theorem updateTopic_preserves_pos (s : MqttDisplay) (t v : String) (f : FailProfile)
    (k : String) (i : TopicInfo) (h : lookupT k s.topics = some i) :
    ∃ i', lookupT k ((s.updateTopic t v f).state).topics = some i' ∧
      i'.row = i.row ∧ i'.value_column = i.value_column := by
  cases hl : lookupT t s.topics with
  | some j =>
    have base : ∀ nv, ∃ i', lookupT k (setVal t nv s.topics) = some i' ∧
        i'.row = i.row ∧ i'.value_column = i.value_column := by
      intro nv
      by_cases hkt : k = t
      · subst hkt
        rw [h] at hl
        cases hl
        exact ⟨{ i with value := nv }, lookupT_setVal_self k nv s.topics i h, rfl, rfl⟩
      · exact ⟨i, by rw [lookupT_setVal_ne t k nv s.topics hkt]; exact h, rfl, rfl⟩
    have base2 : ∀ nv nv', ∃ i', lookupT k (setVal t nv' (setVal t nv s.topics)) = some i' ∧
        i'.row = i.row ∧ i'.value_column = i.value_column := by
      intro nv nv'
      by_cases hkt : k = t
      · subst hkt
        rw [h] at hl
        cases hl
        have h1 := lookupT_setVal_self k nv s.topics i h
        exact ⟨{ i with value := nv' },
          lookupT_setVal_self k nv' (setVal k nv s.topics) { i with value := nv } h1, rfl, rfl⟩
      · refine ⟨i, ?_, rfl, rfl⟩
        rw [lookupT_setVal_ne t k nv' _ hkt, lookupT_setVal_ne t k nv s.topics hkt]
        exact h
    cases hdv : f.dupeValue with
    | true =>
      simp only [MqttDisplay.updateTopic, hl, hdv, if_pos rfl]
      exact base ValueState.freed
    | false =>
      cases hdr : f.drawFails with
      | true =>
        simp only [MqttDisplay.updateTopic, hl, hdv, hdr, Bool.false_eq_true,
          if_false, if_pos rfl]
        exact base2 ValueState.freed (ValueState.live v)
      | false =>
        simp only [MqttDisplay.updateTopic, hl, hdv, hdr, Bool.false_eq_true, if_false]
        exact base2 ValueState.freed (ValueState.live v)
  | none =>
    have hkt : k ≠ t := by
      intro hh
      subst hh
      rw [h] at hl
      cases hl
    cases hdt : f.dupeTopic with
    | true =>
      simp only [MqttDisplay.updateTopic, hl, hdt, if_pos rfl]
      exact ⟨i, h, rfl, rfl⟩
    | false =>
      cases hdv : f.dupeValue with
      | true =>
        simp only [MqttDisplay.updateTopic, hl, hdt, hdv, Bool.false_eq_true,
          if_false, if_pos rfl]
        exact ⟨i, h, rfl, rfl⟩
      | false =>
        cases hpf : f.putFails with
        | true =>
          simp only [MqttDisplay.updateTopic, hl, hdt, hdv, hpf, Bool.false_eq_true,
            if_false, if_pos rfl]
          exact ⟨i, h, rfl, rfl⟩
        | false =>
          cases hdr : f.drawFails with
          | true =>
            simp only [MqttDisplay.updateTopic, hl, hdt, hdv, hpf, hdr,
              Bool.false_eq_true, if_false, if_pos rfl, eq_self_iff_true, if_true]
            refine ⟨i, ?_, rfl, rfl⟩
            rw [lookupT_setVal_ne t k ValueState.freed _ hkt, lookupT_append_ne k t _ _ hkt]
            exact h
          | false =>
            simp only [MqttDisplay.updateTopic, hl, hdt, hdv, hpf, hdr,
              Bool.false_eq_true, if_false]
            refine ⟨i, ?_, rfl, rfl⟩
            rw [lookupT_append_ne k t _ _ hkt]
            exact h

/-- The keys after an all-steps-succeed call: unchanged for an existing key,
the new key appended for a fresh one. -/
theorem keysOf_updateTopic_noFail (s : MqttDisplay) (t v : String) :
    keysOf (s.updateTopic t v noFail).state =
      if t ∈ keysOf s then keysOf s else keysOf s ++ [t] := by
  cases hl : lookupT t s.topics with
  | some j =>
    have hmem : t ∈ keysOf s := by
      by_contra hmem
      simp only [keysOf] at hmem
      rw [← lookupT_eq_none_iff] at hmem
      rw [hmem] at hl
      cases hl
    rw [if_pos hmem]
    simp only [MqttDisplay.updateTopic, hl, noFail, Bool.false_eq_true, if_false]
    show (setVal t (ValueState.live v) (setVal t ValueState.freed s.topics)).map Prod.fst
      = keysOf s
    rw [setVal_map_fst, setVal_map_fst]
    rfl
  | none =>
    have hmem : t ∉ keysOf s := (lookupT_eq_none_iff t s.topics).mp hl
    rw [if_neg hmem]
    simp only [MqttDisplay.updateTopic, hl, noFail, Bool.false_eq_true, if_false]
    show (s.topics ++ [(t, _)]).map Prod.fst = keysOf s ++ [t]
    rw [List.map_append]
    rfl

/-- Any call for a key already in the table leaves the number of entries
unchanged, whatever fails. -/
theorem topicCount_updateTopic_existing (s : MqttDisplay) (t v : String)
    (f : FailProfile) (j : TopicInfo) (hl : lookupT t s.topics = some j) :
    ((s.updateTopic t v f).state).topicCount = s.topicCount := by
  cases hdv : f.dupeValue with
  | true =>
    simp [MqttDisplay.updateTopic, hl, hdv, MqttDisplay.topicCount, setVal_length]
  | false =>
    cases hdr : f.drawFails with
    | true =>
      simp [MqttDisplay.updateTopic, hl, hdv, hdr, MqttDisplay.topicCount, setVal_length]
    | false =>
      simp [MqttDisplay.updateTopic, hl, hdv, hdr, MqttDisplay.topicCount, setVal_length]

/-- A successful call for a fresh key grows the table by exactly one entry. -/
theorem topicCount_updateTopic_new (s : MqttDisplay) (t v : String)
    (hl : lookupT t s.topics = none) :
    ((s.updateTopic t v noFail).state).topicCount = s.topicCount + 1 := by
  simp [MqttDisplay.updateTopic, hl, noFail, MqttDisplay.topicCount]

/-- No call, failed or not, ever shrinks the table. -/
theorem topicCount_updateTopic_mono (s : MqttDisplay) (t v : String) (f : FailProfile) :
    s.topicCount ≤ ((s.updateTopic t v f).state).topicCount := by
  cases hl : lookupT t s.topics with
  | some j =>
    rw [topicCount_updateTopic_existing s t v f j hl]
  | none =>
    cases hdt : f.dupeTopic with
    | true => simp [MqttDisplay.updateTopic, hl, hdt, MqttDisplay.topicCount]
    | false =>
      cases hdv : f.dupeValue with
      | true => simp [MqttDisplay.updateTopic, hl, hdt, hdv, MqttDisplay.topicCount]
      | false =>
        cases hpf : f.putFails with
        | true => simp [MqttDisplay.updateTopic, hl, hdt, hdv, hpf, MqttDisplay.topicCount]
        | false =>
          cases hdr : f.drawFails with
          | true =>
            simp [MqttDisplay.updateTopic, hl, hdt, hdv, hpf, hdr,
              MqttDisplay.topicCount, setVal_length]
          | false =>
            simp [MqttDisplay.updateTopic, hl, hdt, hdv, hpf, hdr, MqttDisplay.topicCount]

/-- A fresh engine satisfies the structural invariant. -/
theorem shape_init : Shape MqttDisplay.init := by
  constructor
  · intro n hn
    simp [MqttDisplay.init] at hn
  · rfl

/-- The state after an all-steps-succeed call on an existing key: the old
value freed, the new one stored, positions and `next_row` untouched. -/
theorem updateTopic_state_existing (s : MqttDisplay) (t v : String) (j : TopicInfo)
    (hl : lookupT t s.topics = some j) :
    (s.updateTopic t v noFail).state =
      { topics := setVal t (ValueState.live v) (setVal t ValueState.freed s.topics),
        next_row := s.next_row, allocCount := s.allocCount - 1 + 1 } := by
  simp [MqttDisplay.updateTopic, hl, noFail]

/-- The state after an all-steps-succeed call on a fresh key: the entry
appended at `row = next_row`, `value_column = length(key) + 3`, and
`next_row` incremented. -/
theorem updateTopic_state_new (s : MqttDisplay) (t v : String)
    (hl : lookupT t s.topics = none) :
    (s.updateTopic t v noFail).state =
      { topics := s.topics ++
          [(t, { row := s.next_row, value_column := t.utf8ByteSize + 3,
                 value := ValueState.live v })],
        next_row := s.next_row + 1, allocCount := s.allocCount + 2 } := by
  simp [MqttDisplay.updateTopic, hl, noFail]

/-- One all-steps-succeed call preserves the structural invariant: the
existing-key path touches no row and not `next_row`; the new-key path
appends an entry with `row = next_row` and then increments `next_row`. -/
theorem shape_updateTopic (s : MqttDisplay) (t v : String) (hs : Shape s) :
    Shape (s.updateTopic t v noFail).state := by
  obtain ⟨hrow, hnext⟩ := hs
  cases hl : lookupT t s.topics with
  | some j =>
    rw [updateTopic_state_existing s t v j hl]
    refine ⟨?_, ?_⟩
    · intro n hn
      have hn0 : n < s.topics.length := by
        simp only [setVal_length] at hn
        exact hn
      have hn1 : n < (setVal t ValueState.freed s.topics).length := by
        rw [setVal_length]
        exact hn0
      have h2 := (setVal_get t (ValueState.live v)
        (setVal t ValueState.freed s.topics) n hn1 hn).2.1
      have h1 := (setVal_get t ValueState.freed s.topics n hn0 hn1).2.1
      rw [h2, h1]
      exact hrow n hn0
    · show s.next_row = (setVal t (ValueState.live v) _).length + 1
      rw [setVal_length, setVal_length]
      exact hnext
  | none =>
    rw [updateTopic_state_new s t v hl]
    refine ⟨?_, ?_⟩
    · intro n hn
      by_cases hcase : n < s.topics.length
      · rw [get_append_sing s.topics _ n hcase hn]
        exact hrow n hcase
      · have hn2 : n = s.topics.length := by
          simp only [List.length_append, List.length_singleton] at hn
          omega
        subst hn2
        rw [get_append_last]
        exact hnext
    · show s.next_row + 1 = (s.topics ++ _).length + 1
      rw [List.length_append, List.length_singleton, hnext]

/-- Every state reachable through successful calls satisfies the structural
invariant. -/
theorem reachableOk_shape (s : MqttDisplay) (h : ReachableOk s) : Shape s := by
  induction h with
  | init => exact shape_init
  | step s t v f _ hok ih =>
    rw [updateTopic_ok_eq_noFail s t v f hok]
    exact shape_updateTopic s t v ih

/-- Under the structural invariant, distinct keys hold distinct rows. -/
theorem shape_unique_rows (s : MqttDisplay) (hs : Shape s) (k1 k2 : String)
    (i1 i2 : TopicInfo) (h1 : lookupT k1 s.topics = some i1)
    (h2 : lookupT k2 s.topics = some i2) (hne : k1 ≠ k2) : i1.row ≠ i2.row := by
  obtain ⟨n1, hn1, hg1⟩ := lookupT_get k1 _ _ h1
  obtain ⟨n2, hn2, hg2⟩ := lookupT_get k2 _ _ h2
  have hr1 := hs.1 n1 hn1
  have hr2 := hs.1 n2 hn2
  rw [hg1] at hr1
  rw [hg2] at hr2
  intro hcontra
  have hn12 : n1 = n2 := by
    have : n1 + 1 = n2 + 1 := by rw [← hr1, ← hr2, hcontra]
    omega
  subst hn12
  rw [hg1] at hg2
  have : k1 = k2 := congrArg Prod.fst hg2
  exact hne this

/-- Running a call list from a start state: key trace and invariant. -/
theorem run_spec_aux (l : List (String × String)) :
    ∀ (s : MqttDisplay) (acc : List String), keysOf s = acc → Shape s →
    keysOf (l.foldl (fun s p => (s.updateTopic p.1 p.2 noFail).state) s) =
      l.foldl (fun acc p => if p.1 ∈ acc then acc else acc ++ [p.1]) acc ∧
    Shape (l.foldl (fun s p => (s.updateTopic p.1 p.2 noFail).state) s) := by
  induction l with
  | nil =>
    intro s acc h hs
    exact ⟨h, hs⟩
  | cons p rest ih =>
    intro s acc h hs
    rw [List.foldl_cons, List.foldl_cons]
    refine ih _ _ ?_ (shape_updateTopic s p.1 p.2 hs)
    rw [keysOf_updateTopic_noFail, h]

/-- The keys of the table after a run are the distinct keys of the call
sequence, in first-seen order. -/
theorem run_keys (l : List (String × String)) : keysOf (run l) = distinctKeys l :=
  (run_spec_aux l MqttDisplay.init [] rfl shape_init).1

/-- The structural invariant holds after any run. -/
theorem run_shape (l : List (String × String)) : Shape (run l) :=
  (run_spec_aux l MqttDisplay.init [] rfl shape_init).2

/-- Folding `max` over rows that are `c + position + 1`. -/
theorem foldr_max_rows (l : List (String × TopicInfo)) :
    ∀ c : Nat, (∀ n, ∀ hn : n < l.length, (l.get ⟨n, hn⟩).2.row = c + n + 1) →
    (l.map fun p => p.2.row).foldr max 0 = if l.length = 0 then 0 else c + l.length := by
  induction l with
  | nil =>
    intro c _
    simp
  | cons p rest ih =>
    intro c h
    have hp : p.2.row = c + 1 := by simpa using h 0 (by simp)
    have hrest := ih (c + 1) (fun n hn => by
      have hh := h (n + 1) (by simpa using Nat.succ_lt_succ hn)
      simpa [Nat.add_assoc, Nat.add_comm, Nat.add_left_comm] using hh)
    show max p.2.row ((rest.map fun p => p.2.row).foldr max 0) = _
    rw [hp, hrest]
    by_cases hr : rest.length = 0
    · rw [if_pos hr, if_neg (by simp), List.length_cons, hr]
      omega
    · rw [if_neg hr, if_neg (by simp), List.length_cons]
      omega

/-- Under the structural invariant the largest assigned row is the number of
entries. -/
theorem maxRow_shape (s : MqttDisplay) (hs : Shape s) : maxRow s = s.topics.length := by
  have h := foldr_max_rows s.topics 0 (fun n hn => by
    rw [hs.1 n hn]
    omega)
  unfold maxRow
  rw [h]
  by_cases h0 : s.topics.length = 0
  · rw [if_pos h0, h0]
  · rw [if_neg h0]
    omega

/-! ### Claim theorems -/

/-- Claim C1: for every sequence of successful update calls starting from a
freshly initialized engine, the Nth distinct key ever passed to update is
assigned row N — the table lists the distinct keys in first-seen order, the
entry at position n holds row n+1, `next_row` starts at 1, equals the number
of first-seen keys plus one, increments by exactly 1 exactly when a call
sees a new key, and a new key's entry is created with `row = next_row`. -/
theorem C1_monotonic_row_assignment (l : List (String × String)) :
    keysOf (run l) = distinctKeys l ∧
    (∀ n, ∀ hn : n < (run l).topics.length, ((run l).topics.get ⟨n, hn⟩).2.row = n + 1) ∧
    MqttDisplay.init.next_row = 1 ∧
    (run l).next_row = (distinctKeys l).length + 1 ∧
    (∀ p : String × String,
      (run (l ++ [p])).next_row =
        if p.1 ∈ distinctKeys l then (run l).next_row else (run l).next_row + 1) ∧
    (∀ (s : MqttDisplay) (t v : String), lookupT t s.topics = none →
      ∃ i, lookupT t ((s.updateTopic t v noFail).state).topics = some i ∧
        i.row = s.next_row) := by
  have hsh := run_shape l
  have hk := run_keys l
  have hlen : (run l).topics.length = (distinctKeys l).length := by
    rw [← hk]
    simp [keysOf]
  refine ⟨hk, hsh.1, rfl, by rw [← hlen]; exact hsh.2, ?_, ?_⟩
  case refine_2 =>
    intro s t v hl
    rw [updateTopic_state_new s t v hl]
    exact ⟨_, lookupT_append_new t s.topics _ hl, rfl⟩
  intro p
  have hrun : run (l ++ [p]) = ((run l).updateTopic p.1 p.2 noFail).state := by
    unfold run
    rw [List.foldl_append]
    rfl
  rw [hrun]
  cases hl : lookupT p.1 (run l).topics with
  | some j =>
    have hmem : p.1 ∈ keysOf (run l) := by
      by_contra hc
      simp only [keysOf] at hc
      rw [← lookupT_eq_none_iff] at hc
      rw [hc] at hl
      cases hl
    rw [hk] at hmem
    rw [updateTopic_state_existing _ _ _ j hl, if_pos hmem]
  | none =>
    have hmem : p.1 ∉ keysOf (run l) := by
      simp only [keysOf]
      exact (lookupT_eq_none_iff _ _).mp hl
    rw [hk] at hmem
    rw [updateTopic_state_new _ _ _ hl, if_neg hmem]

/-- Witness for C1 at the call sequence a,b,a: the second distinct key (b)
sits at table position 1 with row 2. -/
theorem C1_witness :
    ((run [("a", "1"), ("b", "2"), ("a", "3")]).topics.get ⟨1, by decide⟩).2.row = 1 + 1 :=
  (C1_monotonic_row_assignment [("a", "1"), ("b", "2"), ("a", "3")]).2.1 1 (by decide)

/-- Claim C2: once a key is in the table with row R, any further update — for
any key, with any failure profile — leaves that key present with row R; and
in every state reachable through successful updates, distinct keys hold
distinct rows. -/
theorem C2_row_stability_and_uniqueness :
    (∀ (s : MqttDisplay) (k : String) (i : TopicInfo) (t v : String) (f : FailProfile),
      lookupT k s.topics = some i →
      ∃ i', lookupT k ((s.updateTopic t v f).state).topics = some i' ∧ i'.row = i.row) ∧
    (∀ s : MqttDisplay, ReachableOk s →
      ∀ (k1 k2 : String) (i1 i2 : TopicInfo),
        lookupT k1 s.topics = some i1 → lookupT k2 s.topics = some i2 →
        k1 ≠ k2 → i1.row ≠ i2.row) := by
  constructor
  · intro s k i t v f h
    obtain ⟨i', h1, h2, _⟩ := updateTopic_preserves_pos s t v f k i h
    exact ⟨i', h1, h2⟩
  · intro s hr k1 k2 i1 i2 h1 h2 hne
    exact shape_unique_rows s (reachableOk_shape s hr) k1 k2 i1 i2 h1 h2 hne

/-- Witness for C2: after a,b the key a keeps row 1 across one more update
of a, and the rows of a and b differ. -/
theorem C2_witness :
    (∃ i', lookupT "a"
        (((run [("a", "1"), ("b", "2")]).updateTopic "a" "9" noFail).state).topics = some i' ∧
      i'.row = ({ row := 1, value_column := 4, value := ValueState.live "1" } : TopicInfo).row) ∧
    ({ row := 1, value_column := 4, value := ValueState.live "1" } : TopicInfo).row ≠
      ({ row := 2, value_column := 4, value := ValueState.live "2" } : TopicInfo).row := by
  have h1 : ReachableOk (MqttDisplay.init.updateTopic "a" "1" noFail).state :=
    ReachableOk.step MqttDisplay.init "a" "1" noFail ReachableOk.init (by decide)
  have h2 : ReachableOk
      (((MqttDisplay.init.updateTopic "a" "1" noFail).state).updateTopic "b" "2" noFail).state :=
    ReachableOk.step _ "b" "2" noFail h1 (by decide)
  constructor
  · exact C2_row_stability_and_uniqueness.1 (run [("a", "1"), ("b", "2")]) "a"
      { row := 1, value_column := 4, value := ValueState.live "1" } "a" "9" noFail (by decide)
  · exact C2_row_stability_and_uniqueness.2 (run [("a", "1"), ("b", "2")]) h2
      "a" "b" _ _ (by decide) (by decide) (by decide)

/-- Claim C3: after an update call for key k with value v that returned
successfully, the table holds for k (a fresh engine-owned copy of) exactly
the value v, whatever the prior state was. -/
theorem C3_value_freshness (s : MqttDisplay) (t v : String) (f : FailProfile)
    (h : (s.updateTopic t v f).ok = true) :
    ∃ i, lookupT t ((s.updateTopic t v f).state).topics = some i ∧
      i.value = ValueState.live v := by
  rw [updateTopic_ok_eq_noFail s t v f h]
  cases hl : lookupT t s.topics with
  | some j =>
    rw [updateTopic_state_existing s t v j hl]
    have h1 := lookupT_setVal_self t ValueState.freed s.topics j hl
    have h2 := lookupT_setVal_self t (ValueState.live v) _ _ h1
    exact ⟨_, h2, rfl⟩
  | none =>
    rw [updateTopic_state_new s t v hl]
    exact ⟨_, lookupT_append_new t s.topics _ hl, rfl⟩

/-- Witness for C3: updating a second time replaces the stored value. -/
theorem C3_witness :
    ∃ i, lookupT "a" (((run [("a", "1")]).updateTopic "a" "2" noFail).state).topics = some i ∧
      i.value = ValueState.live "2" :=
  C3_value_freshness (run [("a", "1")]) "a" "2" noFail (by decide)

/-- Claim C4: after any sequence of successful updates the entry count is the
number of distinct keys passed so far; a successful new-key call raises it by
exactly one, any call for an existing key leaves it unchanged, and no call —
failed or not — ever lowers it. -/
theorem C4_count_correctness :
    (∀ l : List (String × String), (run l).topicCount = (distinctKeys l).length) ∧
    (∀ (s : MqttDisplay) (t v : String), lookupT t s.topics = none →
      ((s.updateTopic t v noFail).state).topicCount = s.topicCount + 1) ∧
    (∀ (s : MqttDisplay) (t v : String) (f : FailProfile) (j : TopicInfo),
      lookupT t s.topics = some j →
      ((s.updateTopic t v f).state).topicCount = s.topicCount) ∧
    (∀ (s : MqttDisplay) (t v : String) (f : FailProfile),
      s.topicCount ≤ ((s.updateTopic t v f).state).topicCount) := by
  refine ⟨?_, topicCount_updateTopic_new, ?_, topicCount_updateTopic_mono⟩
  · intro l
    have hk := run_keys l
    show (run l).topics.length = (distinctKeys l).length
    rw [← hk]
    simp [keysOf]
  · intro s t v f j hl
    exact topicCount_updateTopic_existing s t v f j hl

/-- Witness for C4: counts on concrete runs. -/
theorem C4_witness :
    (run [("a", "1"), ("a", "2"), ("b", "3")]).topicCount = 2 ∧
    ((MqttDisplay.init.updateTopic "a" "1" noFail).state).topicCount =
      MqttDisplay.init.topicCount + 1 ∧
    (((run [("a", "1")]).updateTopic "a" "2" noFail).state).topicCount =
      (run [("a", "1")]).topicCount := by
  refine ⟨?_, ?_, ?_⟩
  · rw [C4_count_correctness.1 [("a", "1"), ("a", "2"), ("b", "3")]]
    decide
  · exact C4_count_correctness.2.1 MqttDisplay.init "a" "1" (by decide)
  · exact C4_count_correctness.2.2.1 (run [("a", "1")]) "a" "2" noFail
      { row := 1, value_column := 4, value := ValueState.live "1" } (by decide)

/-- Claim C5: a key's value column is computed on its first successful update
as length(key) + 3 (byte length, as the source's `topic.len`), and no later
call — any key, any value, any failure profile — nor a full redraw ever
changes it. -/
theorem C5_column_stability :
    (∀ (s : MqttDisplay) (t v : String), lookupT t s.topics = none →
      ∃ i, lookupT t ((s.updateTopic t v noFail).state).topics = some i ∧
        i.value_column = t.utf8ByteSize + 3) ∧
    (∀ (s : MqttDisplay) (k : String) (i : TopicInfo) (t v : String) (f : FailProfile),
      lookupT k s.topics = some i →
      ∃ i', lookupT k ((s.updateTopic t v f).state).topics = some i' ∧
        i'.value_column = i.value_column) ∧
    (∀ s : MqttDisplay, (s.redrawAll).1 = s) := by
  refine ⟨?_, ?_, fun s => rfl⟩
  · intro s t v hl
    rw [updateTopic_state_new s t v hl]
    exact ⟨_, lookupT_append_new t s.topics _ hl, rfl⟩
  · intro s k i t v f h
    obtain ⟨i', h1, _, h3⟩ := updateTopic_preserves_pos s t v f k i h
    exact ⟨i', h1, h3⟩

/-- Witness for C5: key "ab" gets column 5 and keeps it through an update
with a longer value. -/
theorem C5_witness :
    (∃ i, lookupT "ab" ((MqttDisplay.init.updateTopic "ab" "1" noFail).state).topics
        = some i ∧ i.value_column = "ab".utf8ByteSize + 3) ∧
    (∃ i', lookupT "ab"
        ((((MqttDisplay.init.updateTopic "ab" "1" noFail).state).updateTopic
          "ab" "longervalue" noFail).state).topics = some i' ∧
      i'.value_column = 5) := by
  constructor
  · exact C5_column_stability.1 MqttDisplay.init "ab" "1" (by decide)
  · exact C5_column_stability.2.1 (MqttDisplay.init.updateTopic "ab" "1" noFail).state "ab"
      { row := 1, value_column := 5, value := ValueState.live "1" } "ab" "longervalue" noFail
      (by decide)

/-- Claim C6 as stated is false: in a state reached through an update call
that returned an error — a new-key update whose full-line draw failed after
the entry was inserted — `next_row` equals the maximum assigned row instead
of one past it.  This closed counterexample exhibits such a reachable state
violating the invariant. -/
theorem C6_counterexample : Reachable drawFailState ∧ ¬ nextRowInv drawFailState := by
  constructor
  · exact Reachable.step MqttDisplay.init "a" "x" drawFailOnly Reachable.init
  · show ¬ (drawFailState.next_row =
      if drawFailState.topics.isEmpty then 1 else maxRow drawFailState + 1)
    decide

/-- Claim C6, amended: in every state reachable through update calls that all
returned successfully, `next_row` equals the maximum assigned row plus one,
or 1 when the table is empty. -/
theorem C6_next_row_invariant_ok (s : MqttDisplay) (h : ReachableOk s) : nextRowInv s := by
  have hs := reachableOk_shape s h
  have hmax := maxRow_shape s hs
  show s.next_row = if s.topics.isEmpty then 1 else maxRow s + 1
  by_cases hempty : s.topics.isEmpty
  · rw [if_pos hempty]
    have h0 : s.topics.length = 0 := by
      cases htl : s.topics with
      | nil => rfl
      | cons a as =>
        rw [htl] at hempty
        simp [List.isEmpty] at hempty
    rw [hs.2, h0]
  · rw [if_neg hempty, hmax, hs.2]

/-- Witness for the amended C6 after one successful update. -/
theorem C6_witness : nextRowInv (MqttDisplay.init.updateTopic "a" "1" noFail).state :=
  C6_next_row_invariant_ok _
    (ReachableOk.step MqttDisplay.init "a" "1" noFail ReachableOk.init (by decide))

/-- Claim C7: on the new-key path, when duplicating the value fails after the
key was duplicated, the key duplicate is released before the error
propagates, nothing is inserted, and the entry count is unchanged. -/
theorem C7_no_leak_on_partial_failure (s : MqttDisplay) (t v : String)
    (f : FailProfile) (hl : lookupT t s.topics = none)
    (h1 : f.dupeTopic = false) (h2 : f.dupeValue = true) :
    (s.updateTopic t v f).ok = false ∧
    ((s.updateTopic t v f).state).topics = s.topics ∧
    ((s.updateTopic t v f).state).allocCount = s.allocCount ∧
    ((s.updateTopic t v f).state).topicCount = s.topicCount := by
  refine ⟨?_, ?_, ?_, ?_⟩ <;>
    simp [MqttDisplay.updateTopic, hl, h1, h2, MqttDisplay.topicCount]

/-- Witness for C7: value-dupe failure on a fresh key of a fresh engine. -/
theorem C7_witness :
    (MqttDisplay.init.updateTopic "a" "1" ⟨false, true, false, false⟩).ok = false ∧
    ((MqttDisplay.init.updateTopic "a" "1" ⟨false, true, false, false⟩).state).topics =
      MqttDisplay.init.topics ∧
    ((MqttDisplay.init.updateTopic "a" "1" ⟨false, true, false, false⟩).state).allocCount =
      MqttDisplay.init.allocCount ∧
    ((MqttDisplay.init.updateTopic "a" "1" ⟨false, true, false, false⟩).state).topicCount =
      MqttDisplay.init.topicCount :=
  C7_no_leak_on_partial_failure MqttDisplay.init "a" "1" ⟨false, true, false, false⟩
    (by decide) rfl rfl

/-- The full result of an existing-key call whose value dupe fails: the old
value is already freed, the dangling entry stays, the error propagates. -/
theorem updateTopic_existing_dupeFail (s : MqttDisplay) (t v : String)
    (f : FailProfile) (hl : ∃ i, lookupT t s.topics = some i) (h2 : f.dupeValue = true) :
    s.updateTopic t v f =
      { state := { topics := setVal t ValueState.freed s.topics,
                   next_row := s.next_row, allocCount := s.allocCount - 1 },
        ok := false, out := "" } := by
  obtain ⟨i, hl⟩ := hl
  simp [MqttDisplay.updateTopic, hl, h2]

/-- Claim C8: an update of an already-present key that returns successfully
writes exactly a cursor move to (row, value_column), the clear-to-end-of-line
sequence, then the new value — nothing else, so the key text and a move to
column 1 are never written on this path. -/
theorem C8_existing_key_partial_redraw (s : MqttDisplay) (t v : String)
    (f : FailProfile) (i : TopicInfo) (hl : lookupT t s.topics = some i)
    (h1 : f.dupeValue = false) (h2 : f.drawFails = false) :
    (s.updateTopic t v f).ok = true ∧
    (s.updateTopic t v f).out = cursorTo i.row i.value_column ++ escClearLine ++ v := by
  have hfull : lookupT t (setVal t (ValueState.live v) (setVal t ValueState.freed s.topics)) =
      some { i with value := ValueState.live v } := by
    have ha := lookupT_setVal_self t ValueState.freed s.topics i hl
    have hb := lookupT_setVal_self t (ValueState.live v) _ _ ha
    exact hb
  constructor
  · simp [MqttDisplay.updateTopic, hl, h1, h2]
  · simp [MqttDisplay.updateTopic, hl, h1, h2, redrawTopicValue, hfull, valueText]

/-- Witness for C8: updating key "ab" (column 5, row 1) writes exactly the
cursor move, the clear sequence and the value. -/
theorem C8_witness :
    ((run [("ab", "1")]).updateTopic "ab" "2" noFail).ok = true ∧
    ((run [("ab", "1")]).updateTopic "ab" "2" noFail).out =
      cursorTo 1 5 ++ escClearLine ++ "2" :=
  C8_existing_key_partial_redraw (run [("ab", "1")]) "ab" "2" noFail
    { row := 1, value_column := 5, value := ValueState.live "1" } (by decide) rfl rfl

/-- Claim C9: on the existing-key path the stored value is freed before the
new one is duplicated, so when that duplication fails the entry is left
referencing freed storage — the pre-call value is not preserved and the call
reports failure. -/
theorem C9_existing_key_update_not_atomic (s : MqttDisplay) (t v : String)
    (f : FailProfile) (i : TopicInfo) (hl : lookupT t s.topics = some i)
    (h2 : f.dupeValue = true) :
    (s.updateTopic t v f).ok = false ∧
    lookupT t ((s.updateTopic t v f).state).topics =
      some { i with value := ValueState.freed } ∧
    ((s.updateTopic t v f).state).allocCount = s.allocCount - 1 := by
  rw [updateTopic_existing_dupeFail s t v f ⟨i, hl⟩ h2]
  exact ⟨rfl, lookupT_setVal_self t ValueState.freed s.topics i hl, rfl⟩

/-- Witness for C9: value-dupe failure while updating the existing key "a"
leaves its entry holding freed storage. -/
theorem C9_witness :
    ((run [("a", "1")]).updateTopic "a" "2" ⟨false, true, false, false⟩).ok = false ∧
    lookupT "a" (((run [("a", "1")]).updateTopic "a" "2"
        ⟨false, true, false, false⟩).state).topics =
      some { row := 1, value_column := 4, value := ValueState.freed } ∧
    (((run [("a", "1")]).updateTopic "a" "2"
        ⟨false, true, false, false⟩).state).allocCount = (run [("a", "1")]).allocCount - 1 :=
  C9_existing_key_update_not_atomic (run [("a", "1")]) "a" "2" ⟨false, true, false, false⟩
    { row := 1, value_column := 4, value := ValueState.live "1" } (by decide) rfl

/-- Claim C10: the empty string is accepted as a key like any other: a
successful first update for it creates a normal entry at the next row with
value column 0 + 3 = 3. -/
theorem C10_empty_key_accepted (s : MqttDisplay) (v : String)
    (hl : lookupT "" s.topics = none) :
    (s.updateTopic "" v noFail).ok = true ∧
    lookupT "" ((s.updateTopic "" v noFail).state).topics =
      some { row := s.next_row, value_column := 3, value := ValueState.live v } := by
  constructor
  · exact updateTopic_noFail_ok s "" v
  · rw [updateTopic_state_new s "" v hl]
    have h := lookupT_append_new "" s.topics
      { row := s.next_row, value_column := "".utf8ByteSize + 3,
        value := ValueState.live v } hl
    exact h

/-- Witness for C10: the empty key on a fresh engine lands at row 1 with
value column 3. -/
theorem C10_witness :
    (MqttDisplay.init.updateTopic "" "7" noFail).ok = true ∧
    lookupT "" ((MqttDisplay.init.updateTopic "" "7" noFail).state).topics =
      some { row := 1, value_column := 3, value := ValueState.live "7" } :=
  C10_empty_key_accepted MqttDisplay.init "7" rfl
